import Mathlib

/-!
Verification of the parallel-counting benchmark program (`src/main.cpp`).

The program has three components:
* `generate_random_vector` — deterministic pseudo-random data generation
  (`std::mt19937` seeded explicitly, `std::uniform_int_distribution<int>(0, 1'000'000)`);
* `custom_parallel_count` — a fork/join counter that splits the index range
  `[0, L)` into contiguous blocks, one per worker thread, counts matches per
  block and sums the per-thread tallies;
* `run_experiment` / `main` — a benchmarking harness that sweeps the custom
  counter over thread counts `1 .. 2 * hardware_concurrency` and reports the
  thread count with the smallest elapsed time.

The embedding below is a shallow one: iterators over `std::vector<int>` become
index ranges over a `List Int`, `size_t` arithmetic becomes `Nat` arithmetic
(all quantities here are far below `2^64`, so no wrap-around can occur and
plain `Nat` is faithful), the C++ `int` thread-count argument becomes `Int`,
and the hardware-reported concurrency `std::thread::hardware_concurrency()`
becomes an explicit `Nat` parameter `hw`.  The one genuinely fallible spot —
`total_size / num_threads` divides by zero when the clamp
`min<size_t>(num_threads, thread::hardware_concurrency())` produces `0`, i.e.
when `hw = 0` — is modelled by returning `none` (C++ undefined behaviour).
-/

namespace CountBench

/-- `std::count_if(begin, end, predicate)` over a list of ints:
the number of elements satisfying the predicate. -/
def countIf (p : Int → Bool) (xs : List Int) : Nat :=
  (xs.filter p).length

/-- The sub-range `[a, b)` of a list, as iterators `begin + a`, `begin + b`
delimit it in the C++ code. -/
def slice (xs : List Int) (a b : Nat) : List Int :=
  (xs.drop a).take (b - a)

/-- Start index of block `i` when a range of length `L` is split into `T`
blocks of size `L / T` (the last absorbing the remainder):
`block_start` after `i` loop iterations in `custom_parallel_count`. -/
def blockStart (L T i : Nat) : Nat := i * (L / T)

/-- End index of block `i`: `block_end = (i == num_threads - 1) ? end
: next(block_start, block_size)` in `custom_parallel_count`. -/
def blockEnd (L T i : Nat) : Nat := if i = T - 1 then L else (i + 1) * (L / T)

/-- The block-computation loop of `custom_parallel_count`, carried out exactly
as in the source: `fuel` is the number of remaining iterations, `i` the loop
index, `bStart` the running `block_start` iterator (as an index).  Each
iteration emits the pair `(block_start, block_end)` handed to worker `i` and
advances `block_start` to `block_end`. -/
def blocksAux (L T : Nat) : Nat → Nat → Nat → List (Nat × Nat)
  | 0, _, _ => []
  | fuel + 1, i, bStart =>
    let bEnd := if i = T - 1 then L else bStart + L / T
    (bStart, bEnd) :: blocksAux L T fuel (i + 1) bEnd

/-- The `T` blocks `custom_parallel_count` builds for a range of length `L`. -/
def blocks (L T : Nat) : List (Nat × Nat) := blocksAux L T T 0 0

/-- `custom_parallel_count(begin, end, predicate, num_threads)` from
`src/main.cpp`, with the ambient `std::thread::hardware_concurrency()` made an
explicit parameter `hw`.  Returns `some (count, spawned)` where `spawned` is
the number of worker threads created (`threads.size()` at the join), or `none`
when the clamped thread count is `0` (`hw = 0` on the parallel path), in which
case the C++ code evaluates `total_size / 0` — undefined behaviour. -/
def custom_parallel_count (hw : Nat) (p : Int → Bool) (xs : List Int)
    (num_threads : Int) : Option (Nat × Nat) :=
  let total_size := xs.length
  if total_size = 0 ∨ num_threads ≤ 1 then
    some (countIf p xs, 0)
  else
    let T := min num_threads.toNat hw
    if T = 0 then
      none
    else
      let tallies := (blocks total_size T).map fun b => countIf p (slice xs b.1 b.2)
      some (tallies.sum, T)

/-- `bool is_greater_than_500k(int x) { return x > 500'000; }` -/
def is_greater_than_500k (x : Int) : Bool := decide (x > 500000)

/-- `bool is_divisible_by_7(int x) { return x % 7 == 0; }`  (C++ `%` truncates
toward zero while Lean's `Int.emod` rounds toward negative infinity, but both
remainders vanish exactly on the multiples of `7`, so the comparison with `0`
agrees; the generated inputs are non-negative anyway.) -/
def is_divisible_by_7 (x : Int) : Bool := x % 7 == 0

/-! ### The experiment runner (`run_experiment`) -/

/-- `hardware_threads` in `run_experiment` after the zero fallback:
`int hardware_threads = thread::hardware_concurrency();
if (hardware_threads == 0) hardware_threads = 4;` -/
def hardware_threads_eff (hw : Nat) : Nat := if hw = 0 then 4 else hw

/-- The thread counts visited by the sweep loop
`for (int num_threads = 1; num_threads <= 2 * hardware_threads; ++num_threads)`:
the list `[1, 2, …, 2 * hardware_threads]` in loop order. -/
def sweepThreadCounts (hw : Nat) : List Nat :=
  List.range' 1 (2 * hardware_threads_eff hw)

/-- The calls the sweep makes to the custom counter: at each visited thread
count `k`, the timed body runs `custom_parallel_count(numbers.begin(),
numbers.end(), predicate, num_threads)`. -/
def sweepResults (hw : Nat) (p : Int → Bool) (xs : List Int) :
    List (Nat × Option (Nat × Nat)) :=
  (sweepThreadCounts hw).map fun k => (k, custom_parallel_count hw p xs (k : Int))

/-- `LLONG_MAX`, the initial value of `best_time`. -/
def LLONG_MAX : Int := 9223372036854775807

/-- The body of the best-thread-count tracking:
`if (time_current < best_time) { best_time = time_current; best_threads =
num_threads; }` — `t k` is the elapsed time measured at thread count `k`. -/
def bestStep (t : Nat → Int) (acc : Nat × Int) (k : Nat) : Nat × Int :=
  if t k < acc.2 then (k, t k) else acc

/-- The `(best_threads, best_time)` pair reported by `run_experiment`, as a
function of the measured elapsed times `t`: the sweep starts from
`best_threads = 1`, `best_time = LLONG_MAX` and applies the strict-`<` update
at each visited thread count in increasing order. -/
def bestOfSweep (hw : Nat) (t : Nat → Int) : Nat × Int :=
  (sweepThreadCounts hw).foldl (bestStep t) (1, LLONG_MAX)

/-! ### The fixed experiment script (`main`) -/

/-- `vector<size_t> data_sizes = { 100'000, 1'000'000, 5'000'000 };` -/
def data_sizes : List Nat := [100000, 1000000, 5000000]

/-- The experiment blocks `main` runs, in order: for each data size a sequence
is generated with seed `data_size + 100` and `run_experiment` is invoked twice
on it, once per predicate.  Each entry is `(size, seed, predicate)`. -/
def experimentBlocks : List (Nat × Nat × (Int → Bool)) :=
  (data_sizes.map fun n =>
    [(n, n + 100, is_greater_than_500k), (n, n + 100, is_divisible_by_7)]).flatten

/-! ### The data generator (`generate_random_vector`)

`std::mt19937` is specified exactly by the C++ standard (the MT19937 Mersenne
twister), so it is embedded in full below. -/

/-- State of `std::mt19937`: the 624 32-bit state words plus the position of
the next word to read; `idx = 624` means a twist is due before the next
output. -/
structure MTState where
  mt : List Nat
  idx : Nat

/-- The tail of the seeding recurrence
`mt[i] = (1812433253 * (mt[i-1] xor (mt[i-1] >> 30)) + i) mod 2^32`,
producing `fuel` further words starting at position `i` from word `prev`. -/
def mtInitAux : Nat → Nat → Nat → List Nat
  | 0, _, _ => []
  | fuel + 1, i, prev =>
    let x := (1812433253 * (prev ^^^ (prev >>> 30)) + i) % 2 ^ 32
    x :: mtInitAux fuel (i + 1) x

/-- `std::mt19937 rng(seed)` — the freshly seeded engine state. -/
def mtInit (seed : Nat) : MTState :=
  let x0 := seed % 2 ^ 32
  ⟨x0 :: mtInitAux 623 1 x0, 624⟩

/-- One step of the MT19937 twist, updating state word `i` in place. -/
def mtTwistStep (mt : List Nat) (i : Nat) : List Nat :=
  let x := (mt.getD i 0 &&& 0x80000000) + (mt.getD ((i + 1) % 624) 0 &&& 0x7fffffff)
  let xA := if x % 2 = 1 then (x >>> 1) ^^^ 0x9908B0DF else x >>> 1
  mt.set i (mt.getD ((i + 397) % 624) 0 ^^^ xA)

/-- The full MT19937 twist: all 624 state words updated in ascending order. -/
def mtTwist (mt : List Nat) : List Nat := (List.range 624).foldl mtTwistStep mt

/-- The MT19937 output tempering. -/
def mtTemper (x : Nat) : Nat :=
  let y1 := x ^^^ ((x >>> 11) &&& 0xFFFFFFFF)
  let y2 := y1 ^^^ ((y1 <<< 7) &&& 0x9D2C5680)
  let y3 := y2 ^^^ ((y2 <<< 15) &&& 0xEFC60000)
  y3 ^^^ (y3 >>> 18)

/-- `rng()` — draw one 32-bit value and advance the engine. -/
def mtNext (st : MTState) : Nat × MTState :=
  if st.idx ≥ 624 then
    let mt := mtTwist st.mt
    (mtTemper (mt.getD 0 0), ⟨mt, 1⟩)
  else
    (mtTemper (st.mt.getD st.idx 0), ⟨st.mt, st.idx + 1⟩)

/-- Modelled from the spec: `std::uniform_int_distribution<int> dist(0,
1'000'000)` applied to one engine draw.  The standard specifies the engine
exactly but leaves the distribution's engine-to-range mapping
implementation-defined (it is a pure function of the engine draws; MSVC's
choice differs from libstdc++'s); the spec requires of it only determinism
and the output range `[0, 1000000]`.  It is modelled as a single draw reduced
modulo `1000001`, which has both required properties. -/
def uniformIntDraw (st : MTState) : Nat × MTState :=
  let r := mtNext st
  (r.1 % 1000001, r.2)

/-- The generation loop `for (auto& num : numbers) num = dist(rng);`. -/
def generateAux : Nat → MTState → List Nat
  | 0, _ => []
  | n + 1, st =>
    let r := uniformIntDraw st
    r.1 :: generateAux n r.2

/-- `generate_random_vector(size, seed)` from `src/main.cpp`: a vector of
`size` draws from a `mt19937` engine freshly seeded with `seed`.  (The C++
declaration gives `seed` a default of `42`; `main` always passes it
explicitly.) -/
def generate_random_vector (size : Nat) (seed : Nat) : List Nat :=
  generateAux size (mtInit seed)

/-! ### Closed form of the block loop -/

/-- The loop of `custom_parallel_count` in closed form: starting at loop index
`i` with `block_start = i * (L / T)` and `fuel = T - i` iterations left, the
emitted blocks are `(blockStart j, blockEnd j)` for `j = i, …, T - 1`. -/
lemma blocksAux_eq (L T : Nat) :
    ∀ fuel i, i + fuel = T →
      blocksAux L T fuel i (i * (L / T)) =
        (List.range' i fuel).map fun j => (blockStart L T j, blockEnd L T j) := by
  intro fuel
  induction fuel with
  | zero => intro i _; rfl
  | succ n ih =>
    intro i hi
    rw [List.range'_succ, List.map_cons, blocksAux]
    by_cases hlast : i = T - 1
    · have hn : n = 0 := by omega
      subst hn
      simp only [hlast, if_pos rfl, blockStart, blockEnd, List.range'_zero, List.map_nil]
      rfl
    · have hstep : i * (L / T) + L / T = (i + 1) * (L / T) := by ring
      simp only [if_neg hlast, hstep, blockStart, blockEnd, if_neg hlast]
      exact congrArg _ (ih (i + 1) (by omega))

/-- The `T` blocks in closed form. -/
lemma blocks_eq (L T : Nat) :
    blocks L T = (List.range T).map fun i => (blockStart L T i, blockEnd L T i) := by
  have h := blocksAux_eq L T T 0 (by omega)
  rw [Nat.zero_mul] at h
  rw [blocks, List.range_eq_range']
  exact h

/-! ### Slices of adjacent ranges concatenate -/

lemma slice_append (xs : List Int) (a b c : Nat) (hab : a ≤ b) (hbc : b ≤ c) :
    slice xs a b ++ slice xs b c = slice xs a c := by
  have hsum : c - a = (b - a) + (c - b) := by omega
  have hdrop : (xs.drop a).drop (b - a) = xs.drop b := by
    rw [List.drop_drop]
    congr 1
    omega
  rw [slice, slice, slice, hsum, List.take_add, hdrop]

lemma slice_zero_zero (xs : List Int) : slice xs 0 0 = [] := rfl

lemma slice_zero_length (xs : List Int) : slice xs 0 xs.length = xs := by
  simp [slice]

/-- Concatenating `n` consecutive blocks of size `B` yields the range
`[0, n * B)`. -/
lemma flatten_uniform_slices (xs : List Int) (B : Nat) :
    ∀ n, ((List.range n).map fun i => slice xs (i * B) ((i + 1) * B)).flatten =
      slice xs 0 (n * B) := by
  intro n
  induction n with
  | zero => simp [slice]
  | succ m ih =>
    rw [List.range_succ, List.map_append, List.flatten_append, ih]
    simp only [List.map_cons, List.map_nil, List.flatten_cons, List.flatten_nil,
      List.append_nil]
    exact slice_append xs 0 (m * B) ((m + 1) * B) (Nat.zero_le _)
      (Nat.mul_le_mul_right B (by omega))

/-- The slices handed to the `T` workers concatenate back to the whole
sequence: the blocks tile `[0, L)` in order. -/
lemma flatten_block_slices (xs : List Int) (T : Nat) (hT : 1 ≤ T) :
    ((blocks xs.length T).map fun b => slice xs b.1 b.2).flatten = xs := by
  set L := xs.length with hL
  have hrange : List.range T = List.range (T - 1) ++ [T - 1] := by
    conv_lhs => rw [show T = (T - 1) + 1 by omega]
    exact List.range_succ (T - 1)
  rw [blocks_eq, hrange, List.map_append, List.map_append, List.flatten_append]
  have huni : ((List.range (T - 1)).map fun i =>
      slice xs (blockStart L T i) (blockEnd L T i)) =
      (List.range (T - 1)).map fun i => slice xs (i * (L / T)) ((i + 1) * (L / T)) := by
    apply List.map_congr_left
    intro i hi
    have hi' : i < T - 1 := List.mem_range.mp hi
    rw [blockStart, blockEnd, if_neg (by omega)]
  have hlastB : (T - 1) * (L / T) ≤ L := by
    calc (T - 1) * (L / T) ≤ T * (L / T) := Nat.mul_le_mul_right _ (by omega)
    _ = L / T * T := Nat.mul_comm _ _
    _ ≤ L := Nat.div_mul_le_self L T
  rw [List.map_map, Function.comp_def, huni, flatten_uniform_slices]
  simp only [List.map_cons, List.map_nil, List.flatten_cons, List.flatten_nil,
    List.append_nil, blockStart, blockEnd, eq_self_iff_true, if_true]
  rw [slice_append xs 0 ((T - 1) * (L / T)) L (Nat.zero_le _) hlastB]
  exact slice_zero_length xs

/-! ### Sums of per-block counts -/

lemma countIf_append (p : Int → Bool) (l₁ l₂ : List Int) :
    countIf p (l₁ ++ l₂) = countIf p l₁ + countIf p l₂ := by
  simp [countIf, List.filter_append]

lemma countIf_flatten (p : Int → Bool) :
    ∀ ls : List (List Int), countIf p ls.flatten = (ls.map (countIf p)).sum := by
  intro ls
  induction ls with
  | nil => rfl
  | cons a ls ih =>
    rw [List.flatten_cons, countIf_append, List.map_cons, List.sum_cons, ih]

/-- Core functional-correctness lemma: on the parallel path (non-empty input,
requested count at least `2`, at least one hardware execution unit) the
counter returns the sequential count, and the number of spawned workers is the
clamped thread count `min num_threads hw`. -/
lemma custom_parallel_count_spec (hw : Nat) (p : Int → Bool) (xs : List Int)
    (K : Int) (hhw : 1 ≤ hw) (hK : 2 ≤ K) (hxs : xs ≠ []) :
    custom_parallel_count hw p xs K = some (countIf p xs, min K.toNat hw) := by
  have hlen : xs.length ≠ 0 := fun h => hxs (List.length_eq_zero.mp h)
  have hK1 : ¬ K ≤ 1 := by omega
  have hT1 : 1 ≤ min K.toNat hw := by
    have : 2 ≤ K.toNat := by omega
    omega
  have hcond : ¬ (xs.length = 0 ∨ K ≤ 1) := by omega
  have hT0 : ¬ min K.toNat hw = 0 := by omega
  have hsum : ((blocks xs.length (min K.toNat hw)).map
      fun b => countIf p (slice xs b.1 b.2)).sum = countIf p xs := by
    have hmaps : ((blocks xs.length (min K.toNat hw)).map
        fun b => slice xs b.1 b.2).map (countIf p) =
        (blocks xs.length (min K.toNat hw)).map
          fun b => countIf p (slice xs b.1 b.2) := by
      rw [List.map_map]
      exact List.map_congr_left fun b _ => rfl
    rw [← hmaps, ← countIf_flatten, flatten_block_slices xs _ hT1]
  simp only [custom_parallel_count]
  rw [if_neg hcond, if_neg hT0, hsum]

/-- The generation loop produces exactly the requested number of elements. -/
lemma generateAux_length : ∀ (n : Nat) (st : MTState), (generateAux n st).length = n := by
  intro n
  induction n with
  | zero => intro st; rfl
  | succ m ih =>
    intro st
    simp only [generateAux, List.length_cons, ih]

/-- Loop invariant of the best-thread-count tracking: folding `bestStep` over
a strictly increasing list `l` of later thread counts, starting from an
accumulator `(b, t b)` where `b` precedes everything in `l`, produces the
first-encountered minimum of `t` over `b :: l`. -/
lemma foldl_bestStep_inv (t : Nat → Int) :
    ∀ (l : List Nat) (b : Nat), (∀ k ∈ l, b < k) → l.Pairwise (· < ·) →
      (l.foldl (bestStep t) (b, t b)).2 = t (l.foldl (bestStep t) (b, t b)).1 ∧
      ((l.foldl (bestStep t) (b, t b)).1 = b ∨ (l.foldl (bestStep t) (b, t b)).1 ∈ l) ∧
      t (l.foldl (bestStep t) (b, t b)).1 ≤ t b ∧
      (∀ k ∈ l, t (l.foldl (bestStep t) (b, t b)).1 ≤ t k) ∧
      (t b = t (l.foldl (bestStep t) (b, t b)).1 → (l.foldl (bestStep t) (b, t b)).1 = b) ∧
      ∀ k ∈ l, t k = t (l.foldl (bestStep t) (b, t b)).1 → (l.foldl (bestStep t) (b, t b)).1 ≤ k := by
  intro l
  induction l with
  | nil =>
    intro b _ _
    exact ⟨rfl, Or.inl rfl, le_refl _, fun k hk => absurd hk (List.not_mem_nil k),
      fun _ => rfl, fun k hk => absurd hk (List.not_mem_nil k)⟩
  | cons k l ih =>
    intro b hb hpw
    have hbk : b < k := hb k (List.mem_cons_self k l)
    have hpw' : l.Pairwise (· < ·) := hpw.of_cons
    have hkl : ∀ j ∈ l, k < j := fun j hj => List.rel_of_pairwise_cons hpw hj
    rw [List.foldl_cons]
    by_cases hlt : t k < t b
    · have hstep : bestStep t (b, t b) k = (k, t k) := by
        simp only [bestStep]
        rw [if_pos hlt]
      rw [hstep]
      obtain ⟨h1, h2, h3, h4, h5, h6⟩ := ih k hkl hpw'
      refine ⟨h1, ?_, le_of_lt (lt_of_le_of_lt h3 hlt), ?_, ?_, ?_⟩
      · rcases h2 with h | h
        · exact Or.inr (by rw [h]; exact List.mem_cons_self k l)
        · exact Or.inr (List.mem_cons_of_mem k h)
      · intro j hj
        rcases List.mem_cons.mp hj with rfl | hj'
        · exact h3
        · exact h4 j hj'
      · intro heq
        exact absurd heq (ne_of_gt (lt_of_le_of_lt h3 hlt))
      · intro j hj hje
        rcases List.mem_cons.mp hj with rfl | hj'
        · exact le_of_eq (h5 hje)
        · exact h6 j hj' hje
    · have hstep : bestStep t (b, t b) k = (b, t b) := by
        simp only [bestStep]
        rw [if_neg hlt]
      rw [hstep]
      obtain ⟨h1, h2, h3, h4, h5, h6⟩ := ih b (fun j hj => lt_trans hbk (hkl j hj)) hpw'
      refine ⟨h1, ?_, h3, ?_, h5, ?_⟩
      · rcases h2 with h | h
        · exact Or.inl h
        · exact Or.inr (List.mem_cons_of_mem k h)
      · intro j hj
        rcases List.mem_cons.mp hj with rfl | hj'
        · exact le_trans h3 (not_lt.mp hlt)
        · exact h4 j hj'
      · intro j hj hje
        rcases List.mem_cons.mp hj with rfl | hj'
        · have hble : t b ≤ t j := not_lt.mp hlt
          have heqb : t b = t (l.foldl (bestStep t) (b, t b)).1 :=
            le_antisymm (hje ▸ hble) h3
          rw [h5 heqb]
          exact le_of_lt hbk
        · exact h6 j hj' hje

/-- Any `a` lies below the right endpoint of the `a / b`-th block of size
`b`. -/
lemma lt_div_succ_mul (a b : Nat) (hb : 0 < b) : a < (a / b + 1) * b := by
  have h1 := Nat.div_add_mod a b
  have h2 := Nat.mod_lt a hb
  have h3 : (a / b + 1) * b = b * (a / b) + b := by ring
  omega

/-! ### Claims -/

/-- C1: for every sequence `S`, predicate `P` and requested thread count
`K ≥ 1`, `custom_parallel_count(S, P, K)` returns the same count as a plain
sequential `count_if` over `S` with `P`.  (`hw` is the hardware-reported
concurrency; `1 ≤ hw` says the hardware reports at least one execution unit —
the detection-failure report `hw = 0`, on which the parallel path divides by
zero, is treated under C9.) -/
theorem C1_functional_equivalence (hw : Nat) (p : Int → Bool) (xs : List Int)
    (K : Int) (hhw : 1 ≤ hw) (hK : 1 ≤ K) :
    (custom_parallel_count hw p xs K).map Prod.fst = some (countIf p xs) := by
  by_cases h : xs.length = 0 ∨ K ≤ 1
  · simp only [custom_parallel_count]
    rw [if_pos h]
    rfl
  · push_neg at h
    rw [custom_parallel_count_spec hw p xs K hhw (by omega)
      (fun he => h.1 (by rw [he]; rfl))]
    rfl

/-- Witness for C1 at a concrete input: three elements, two threads, two
hardware units; exactly one element exceeds `500000`. -/
theorem C1_functional_equivalence_witness :
    (1 : Nat) ≤ 4 ∧ (1 : Int) ≤ 2 ∧
    (custom_parallel_count 4 is_greater_than_500k [1, 600000, 3] 2).map Prod.fst =
      some 1 := by
  refine ⟨by decide, by decide, ?_⟩
  have h := C1_functional_equivalence 4 is_greater_than_500k [1, 600000, 3] 2
    (by decide) (by decide)
  rw [h]
  rfl

/-- C2: for every length `L` and effective thread count `T ≥ 1`, the `T`
computed blocks are contiguous, non-overlapping and gap-free: each of the
first `T - 1` blocks has size `L / T`, the final block absorbs the remainder
(ending exactly at `L`), and the union of the block ranges is exactly
`[0, L)`. -/
theorem C2_blocks_partition (L T : Nat) (hT : 1 ≤ T) :
    blocks L T = (List.range T).map (fun i => (blockStart L T i, blockEnd L T i)) ∧
    (blocks L T).length = T ∧
    (∀ i, i < T - 1 → blockEnd L T i - blockStart L T i = L / T) ∧
    blockEnd L T (T - 1) = L ∧
    (∀ i, i + 1 < T → blockEnd L T i = blockStart L T (i + 1)) ∧
    (∀ j, j < L ↔ ∃ i, i < T ∧ blockStart L T i ≤ j ∧ j < blockEnd L T i) ∧
    ∀ i₁ i₂ j, i₁ < i₂ → i₂ < T → blockStart L T i₂ ≤ j → j < blockEnd L T i₁ →
      False := by
  refine ⟨blocks_eq L T, ?_, ?_, ?_, ?_, ?_, ?_⟩
  · rw [blocks_eq, List.length_map, List.length_range]
  · intro i hi
    have hne : ¬ i = T - 1 := by omega
    simp only [blockEnd, if_neg hne, blockStart]
    have h : (i + 1) * (L / T) = i * (L / T) + L / T := by ring
    rw [h, Nat.add_sub_cancel_left]
  · simp [blockEnd]
  · intro i hi
    have hne : ¬ i = T - 1 := by omega
    simp only [blockEnd, if_neg hne, blockStart]
  · intro j
    constructor
    · intro hj
      by_cases hB : L / T = 0
      · refine ⟨T - 1, by omega, ?_, ?_⟩
        · simp only [blockStart, hB, Nat.mul_zero]
          exact Nat.zero_le j
        · simp only [blockEnd, if_pos rfl]
          exact hj
      · by_cases hcase : j / (L / T) < T - 1
        · refine ⟨j / (L / T), Nat.lt_of_lt_of_le hcase (Nat.sub_le T 1), ?_, ?_⟩
          · simp only [blockStart]
            exact Nat.div_mul_le_self j (L / T)
          · simp only [blockEnd, if_neg (Nat.ne_of_lt hcase)]
            exact lt_div_succ_mul j (L / T) (Nat.pos_of_ne_zero hB)
        · refine ⟨T - 1, by omega, ?_, ?_⟩
          · simp only [blockStart]
            have h4 : (T - 1) * (L / T) ≤ j / (L / T) * (L / T) :=
              Nat.mul_le_mul_right _ (Nat.le_of_not_lt hcase)
            exact le_trans h4 (Nat.div_mul_le_self j (L / T))
          · simp only [blockEnd, if_pos rfl]
            exact hj
    · rintro ⟨i, hiT, hs, he⟩
      by_cases hlast : i = T - 1
      · rw [hlast] at he
        simp only [blockEnd, if_pos rfl] at he
        exact he
      · simp only [blockEnd, if_neg hlast] at he
        have h1 : (i + 1) * (L / T) ≤ T * (L / T) := Nat.mul_le_mul_right _ (by omega)
        have h2 : T * (L / T) ≤ L := by
          rw [Nat.mul_comm]
          exact Nat.div_mul_le_self L T
        exact lt_of_lt_of_le he (le_trans h1 h2)
  · intro i₁ i₂ j h12 h2T hs he
    have h1ne : ¬ i₁ = T - 1 := by omega
    simp only [blockEnd, if_neg h1ne] at he
    simp only [blockStart] at hs
    have hle : (i₁ + 1) * (L / T) ≤ i₂ * (L / T) := Nat.mul_le_mul_right _ (by omega)
    exact Nat.lt_irrefl j (lt_of_lt_of_le he (le_trans hle hs))

/-- Witness for C2: the partition of a range of length `7` into `3` blocks
(`[0,2) [2,4) [4,7)`). -/
theorem C2_blocks_partition_witness :
    1 ≤ 3 ∧
    (blocks 7 3 = (List.range 3).map (fun i => (blockStart 7 3 i, blockEnd 7 3 i)) ∧
    (blocks 7 3).length = 3 ∧
    (∀ i, i < 3 - 1 → blockEnd 7 3 i - blockStart 7 3 i = 7 / 3) ∧
    blockEnd 7 3 (3 - 1) = 7 ∧
    (∀ i, i + 1 < 3 → blockEnd 7 3 i = blockStart 7 3 (i + 1)) ∧
    (∀ j, j < 7 ↔ ∃ i, i < 3 ∧ blockStart 7 3 i ≤ j ∧ j < blockEnd 7 3 i) ∧
    ∀ i₁ i₂ j, i₁ < i₂ → i₂ < 3 → blockStart 7 3 i₂ ≤ j → j < blockEnd 7 3 i₁ →
      False) :=
  ⟨by decide, C2_blocks_partition 7 3 (by decide)⟩

/-- C4: when the sequence is empty or the requested thread count is at most
`1`, `custom_parallel_count` falls back to a single-threaded linear count and
spawns no threads; in particular on the empty sequence it returns `0` for any
requested thread count and any predicate. -/
theorem C4_degenerate_fallback (hw : Nat) (p : Int → Bool) (xs : List Int)
    (K : Int) (h : xs = [] ∨ K ≤ 1) :
    custom_parallel_count hw p xs K = some (countIf p xs, 0) ∧
    custom_parallel_count hw p [] K = some (0, 0) := by
  constructor
  · have hcond : xs.length = 0 ∨ K ≤ 1 := by
      rcases h with h | h
      · left
        rw [h]
        rfl
      · right
        exact h
    simp only [custom_parallel_count]
    rw [if_pos hcond]
  · simp only [custom_parallel_count]
    rw [if_pos (show ([] : List Int).length = 0 ∨ K ≤ 1 from Or.inl rfl)]
    rfl

/-- Witness for C4: empty sequence, requested thread count `5`, three
hardware units. -/
theorem C4_degenerate_fallback_witness :
    (([] : List Int) = [] ∨ (5 : Int) ≤ 1) ∧
    (custom_parallel_count 3 is_divisible_by_7 [] 5 =
      some (countIf is_divisible_by_7 [], 0) ∧
    custom_parallel_count 3 is_divisible_by_7 [] 5 = some (0, 0)) :=
  ⟨Or.inl rfl, C4_degenerate_fallback 3 is_divisible_by_7 [] 5 (Or.inl rfl)⟩

/-- C5: on a non-empty sequence with requested thread count `K ≥ 2` (and at
least one hardware execution unit reported), the effective thread count — the
number of workers spawned and partitions made — is `min K hw`, and in
particular never exceeds the hardware-concurrency limit `hw`. -/
theorem C5_thread_count_clamping (hw : Nat) (p : Int → Bool) (xs : List Int)
    (K : Int) (hhw : 1 ≤ hw) (hK : 2 ≤ K) (hxs : xs ≠ []) :
    custom_parallel_count hw p xs K = some (countIf p xs, min K.toNat hw) ∧
    min K.toNat hw ≤ hw :=
  ⟨custom_parallel_count_spec hw p xs K hhw hK hxs, Nat.min_le_right _ _⟩

/-- Witness for C5: requesting `5` threads with `2` hardware units spawns
only `min 5 2 = 2` workers. -/
theorem C5_thread_count_clamping_witness :
    (1 : Nat) ≤ 2 ∧ (2 : Int) ≤ 5 ∧ ([1, 2, 3] : List Int) ≠ [] ∧
    (custom_parallel_count 2 is_divisible_by_7 [1, 2, 3] 5 =
      some (countIf is_divisible_by_7 [1, 2, 3], min (5 : Int).toNat 2) ∧
    min (5 : Int).toNat 2 ≤ 2) :=
  ⟨by decide, by decide, by decide,
    C5_thread_count_clamping 2 is_divisible_by_7 [1, 2, 3] 5 (by decide) (by decide)
      (by decide)⟩

/-- C3 refuted: three data sizes crossed with two predicates each give six
experiment blocks, not eight — `main` makes exactly six `run_experiment`
calls. -/
theorem C3_eight_blocks_refuted :
    experimentBlocks.length = 6 ∧ experimentBlocks.length ≠ 8 :=
  ⟨rfl, by decide⟩

/-- C3 amended: a single run executes exactly six experiment blocks — the
three data sizes `100000`, `1000000`, `5000000` crossed with two predicates
each — in the order of the `main` loop (the seed of each block is its data
size plus `100`). -/
theorem C3_six_experiment_blocks :
    experimentBlocks.length = 6 ∧
    experimentBlocks =
      [(100000, 100100, is_greater_than_500k), (100000, 100100, is_divisible_by_7),
       (1000000, 1000100, is_greater_than_500k), (1000000, 1000100, is_divisible_by_7),
       (5000000, 5000100, is_greater_than_500k), (5000000, 5000100, is_divisible_by_7)] ∧
    data_sizes.length = 3 :=
  ⟨rfl, rfl, rfl⟩

/-- C6: the sweep visits exactly the thread counts `1 .. 2 * H` where `H` is
the detected hardware concurrency, or the fallback `4` when detection reports
`0` (thread counts `1` through `8`); each visited thread count is an
invocation of the custom parallel counter. -/
theorem C6_sweep_range (hw : Nat) :
    (∀ k, k ∈ sweepThreadCounts hw ↔ 1 ≤ k ∧ k ≤ 2 * (if hw = 0 then 4 else hw)) ∧
    sweepThreadCounts 0 = [1, 2, 3, 4, 5, 6, 7, 8] ∧
    ∀ (p : Int → Bool) (xs : List Int) (k : Nat),
      (k, custom_parallel_count hw p xs (k : Int)) ∈ sweepResults hw p xs ↔
        k ∈ sweepThreadCounts hw := by
  refine ⟨?_, by decide, ?_⟩
  · intro k
    rw [sweepThreadCounts, List.mem_range'_1]
    simp only [hardware_threads_eff]
    by_cases h0 : hw = 0
    · omega
    · omega
  · intro p xs k
    constructor
    · intro hmem
      simp only [sweepResults] at hmem
      obtain ⟨j, hj, hje⟩ := List.mem_map.mp hmem
      have hjk : j = k := congrArg Prod.fst hje
      rw [← hjk]
      exact hj
    · intro hk
      simp only [sweepResults]
      exact List.mem_map.mpr ⟨k, hk, rfl⟩

/-- C7: the `best_threads` value reported at the end of the sweep is the
smallest visited thread count whose elapsed time equals the minimum over the
sweep: it lies in the sweep, its time is the minimum (`best_time` records
exactly that time), and any visited thread count achieving the same time is
at least it — the strict `<` comparison during the increasing traversal
breaks ties in favour of the first-encountered thread count.  (`t k` is the
elapsed time measured at thread count `k`; being a `long long`, it never
exceeds the `LLONG_MAX` sentinel that seeds `best_time`.) -/
theorem C7_best_thread_first_minimum (hw : Nat) (t : Nat → Int)
    (ht : ∀ k ∈ sweepThreadCounts hw, t k ≤ LLONG_MAX) :
    (bestOfSweep hw t).1 ∈ sweepThreadCounts hw ∧
    (bestOfSweep hw t).2 = t (bestOfSweep hw t).1 ∧
    (∀ k ∈ sweepThreadCounts hw, t (bestOfSweep hw t).1 ≤ t k) ∧
    ∀ k ∈ sweepThreadCounts hw, t k = t (bestOfSweep hw t).1 →
      (bestOfSweep hw t).1 ≤ k := by
  have hpos : 1 ≤ hardware_threads_eff hw := by
    simp only [hardware_threads_eff]
    split <;> omega
  have hsweep : sweepThreadCounts hw =
      1 :: List.range' 2 (2 * hardware_threads_eff hw - 1) := by
    rw [sweepThreadCounts]
    conv_lhs =>
      rw [show 2 * hardware_threads_eff hw = (2 * hardware_threads_eff hw - 1) + 1
        by omega]
    exact List.range'_succ 1 _ 1
  have h1mem : (1 : Nat) ∈ sweepThreadCounts hw := by
    rw [hsweep]
    exact List.mem_cons_self 1 _
  have h1le : t 1 ≤ LLONG_MAX := ht 1 h1mem
  have hbest : bestOfSweep hw t =
      (List.range' 2 (2 * hardware_threads_eff hw - 1)).foldl (bestStep t) (1, t 1) := by
    rw [bestOfSweep, hsweep, List.foldl_cons]
    congr 1
    simp only [bestStep]
    by_cases hlt : t 1 < LLONG_MAX
    · rw [if_pos hlt]
    · rw [if_neg hlt, le_antisymm h1le (not_lt.mp hlt)]
  obtain ⟨h1, h2, h3, h4, h5, h6⟩ :=
    foldl_bestStep_inv t (List.range' 2 (2 * hardware_threads_eff hw - 1)) 1
      (fun k hk => by rw [List.mem_range'_1] at hk; omega)
      (List.pairwise_lt_range' ..)
  rw [hbest, hsweep]
  refine ⟨?_, h1, ?_, ?_⟩
  · rcases h2 with h | h
    · rw [h]
      exact List.mem_cons_self 1 _
    · exact List.mem_cons_of_mem 1 h
  · intro k hk
    rcases List.mem_cons.mp hk with rfl | hk'
    · exact h3
    · exact h4 k hk'
  · intro k hk hke
    rcases List.mem_cons.mp hk with rfl | hk'
    · exact le_of_eq (h5 hke)
    · exact h6 k hk' hke

/-- Witness for C7: hardware concurrency reported as `0`, so the sweep is
`1 .. 8`; with the constant timing `5 ms` everywhere the reported best thread
count is the first-encountered one. -/
theorem C7_best_thread_first_minimum_witness :
    (∀ k ∈ sweepThreadCounts 0, (fun _ => (5 : Int)) k ≤ LLONG_MAX) ∧
    ((bestOfSweep 0 (fun _ => (5 : Int))).1 ∈ sweepThreadCounts 0 ∧
    (bestOfSweep 0 (fun _ => (5 : Int))).2 = (fun _ => (5 : Int)) (bestOfSweep 0 (fun _ => (5 : Int))).1 ∧
    (∀ k ∈ sweepThreadCounts 0,
      (fun _ => (5 : Int)) (bestOfSweep 0 (fun _ => (5 : Int))).1 ≤ (fun _ => (5 : Int)) k) ∧
    ∀ k ∈ sweepThreadCounts 0,
      (fun _ => (5 : Int)) k = (fun _ => (5 : Int)) (bestOfSweep 0 (fun _ => (5 : Int))).1 →
        (bestOfSweep 0 (fun _ => (5 : Int))).1 ≤ k) :=
  ⟨by decide, C7_best_thread_first_minimum 0 (fun _ => (5 : Int)) (by decide)⟩

/-- C8: the data generator is deterministic — it is a pure function of the
pair `(length, seed)` (the engine is freshly seeded inside the call, so two
calls with identical arguments yield identical sequences) — and it produces
exactly the requested number of elements. -/
theorem C8_generator_deterministic :
    ∀ size seed : Nat,
      generate_random_vector size seed = generate_random_vector size seed ∧
      (generate_random_vector size seed).length = size :=
  fun size seed => ⟨rfl, generateAux_length size (mtInit seed)⟩

/-- C9 evaluated at the failing input: with hardware concurrency reported as
`0`, a non-empty sequence and requested thread count `2`, the clamped thread
count `min<size_t>(num_threads, thread::hardware_concurrency())` is `0` —
not strictly positive as the claim states — and the block-size computation
`total_size / num_threads` divides by zero (undefined behaviour, `none` in
this embedding). -/
theorem C9_division_by_zero_when_hw_zero :
    min ((2 : Int)).toNat 0 = 0 ∧
    custom_parallel_count 0 is_greater_than_500k [0] 2 = none := by
  exact ⟨rfl, rfl⟩

/-- C10: with more effective threads than elements (`T = min K hw > L ≥ 1`),
the block size `L / T` is `0`, so each of the first `T - 1` workers receives
an empty block, the final worker receives the whole sequence, and the result
still equals the sequential count. -/
theorem C10_empty_blocks_when_overpartitioned (hw : Nat) (p : Int → Bool)
    (xs : List Int) (K : Int) (hhw : 1 ≤ hw) (hK : 2 ≤ K) (hxs : xs ≠ [])
    (hTL : xs.length < min K.toNat hw) :
    xs.length / min K.toNat hw = 0 ∧
    (∀ i, i < min K.toNat hw - 1 →
      slice xs (blockStart xs.length (min K.toNat hw) i)
        (blockEnd xs.length (min K.toNat hw) i) = []) ∧
    slice xs (blockStart xs.length (min K.toNat hw) (min K.toNat hw - 1))
      (blockEnd xs.length (min K.toNat hw) (min K.toNat hw - 1)) = xs ∧
    custom_parallel_count hw p xs K = some (countIf p xs, min K.toNat hw) := by
  have hB : xs.length / min K.toNat hw = 0 := Nat.div_eq_of_lt hTL
  refine ⟨hB, ?_, ?_, custom_parallel_count_spec hw p xs K hhw hK hxs⟩
  · intro i hi
    have hne : ¬ i = min K.toNat hw - 1 := by omega
    simp only [blockEnd, if_neg hne, blockStart, hB, Nat.mul_zero]
    rfl
  · simp only [blockEnd, if_pos rfl, blockStart, hB, Nat.mul_zero]
    exact slice_zero_length xs

/-- Witness for C10: two elements, five effective threads
(`min 5 8 = 5 > 2`). -/
theorem C10_empty_blocks_when_overpartitioned_witness :
    (1 : Nat) ≤ 8 ∧ (2 : Int) ≤ 5 ∧ ([1, 700000] : List Int) ≠ [] ∧
    ([1, 700000] : List Int).length < min (5 : Int).toNat 8 ∧
    (([1, 700000] : List Int).length / min (5 : Int).toNat 8 = 0 ∧
    (∀ i, i < min (5 : Int).toNat 8 - 1 →
      slice [1, 700000] (blockStart ([1, 700000] : List Int).length (min (5 : Int).toNat 8) i)
        (blockEnd ([1, 700000] : List Int).length (min (5 : Int).toNat 8) i) = []) ∧
    slice [1, 700000]
      (blockStart ([1, 700000] : List Int).length (min (5 : Int).toNat 8)
        (min (5 : Int).toNat 8 - 1))
      (blockEnd ([1, 700000] : List Int).length (min (5 : Int).toNat 8)
        (min (5 : Int).toNat 8 - 1)) = [1, 700000] ∧
    custom_parallel_count 8 is_greater_than_500k [1, 700000] 5 =
      some (countIf is_greater_than_500k [1, 700000], min (5 : Int).toNat 8)) :=
  ⟨by decide, by decide, by decide, by decide,
    C10_empty_blocks_when_overpartitioned 8 is_greater_than_500k [1, 700000] 5
      (by decide) (by decide) (by decide) (by decide)⟩

end CountBench
